import Mathlib

set_option maxHeartbeats 1000000

/-!
Verification development for the code-scout engine of wizelit-mcp.

The Lean definitions below are a shallow embedding of the Python source:
`code_scout/code_scout.py` (symbol scanner, dependency graph, impact
analysis, git blame), `code_scout/github_cache.py` (repository cache with
TTL and size eviction) and `code_scout/github_helper.py` (URL
classification).  Machine-level details that the properties do not touch
(md5 hashing of cache keys, the real filesystem, subprocess plumbing) are
modelled by explicit parameters; everything else follows the source line
by line.
-/

namespace CodeScout

/-- `usage_type` field of `SymbolUsage`; the source stores one of the four
strings 'import', 'call', 'definition', 'reference'. -/
inductive UsageType where
  | imp
  | call
  | reference
  | definition
  deriving DecidableEq, Repr

/-- Embedding of the `SymbolUsage` dataclass. -/
structure SymbolUsage where
  file_path : String
  line_number : Nat
  column : Nat
  context : String
  usage_type : UsageType
  deriving DecidableEq, Repr

/-- `CodeScout.symbol_usages`: a Python dict mapping symbol names to lists
of usages, in insertion order; embedded as an association list. -/
abbrev SymbolIndex := List (String × List SymbolUsage)

/-- Dict lookup `d.get(s)` on the index: first entry with the given key. -/
def lookupIdx : SymbolIndex → String → Option (List SymbolUsage)
  | [], _ => none
  | (k, us) :: rest, s => if k = s then some us else lookupIdx rest s

/-- Embedding of `CodeScout.find_symbol`: `self.symbol_usages.get(symbol_name, [])`. -/
def find_symbol (idx : SymbolIndex) (s : String) : List SymbolUsage :=
  match lookupIdx idx s with
  | some us => us
  | none => []

/-- Embedding of the `DependencyNode` dataclass. -/
structure DependencyNode where
  symbol : String
  file_path : String
  dependencies : List String
  dependents : List String
  deriving DecidableEq, Repr

/-- The graph dict of `build_dependency_graph`, as an association list in
insertion order. -/
abbrev Graph := List (String × DependencyNode)

/-- Dict lookup on the graph. -/
def lookupNode : Graph → String → Option DependencyNode
  | [], _ => none
  | (k, n) :: rest, s => if k = s then some n else lookupNode rest s

/-- Python dict item update `graph[s] = f(graph[s])` (no-op when the key is
absent, which never happens at call sites). -/
def updateNode (g : Graph) (s : String) (f : DependencyNode → DependencyNode) : Graph :=
  g.map (fun p => if p.1 = s then (p.1, f p.2) else p)

/-- `needle` occurs as a contiguous sublist of `haystack`. -/
def listInfix (needle : List Char) : List Char → Bool
  | [] => needle.isEmpty
  | c :: rest => needle.isPrefixOf (c :: rest) || listInfix needle rest

/-- Python substring test `needle in haystack` on strings. -/
def strContains (haystack needle : String) : Bool :=
  listInfix needle.toList haystack.toList

/-- `[u for u in usages if u.usage_type == "definition"]`, first element. -/
def firstDefinition (usages : List SymbolUsage) : Option SymbolUsage :=
  usages.find? (fun u => u.usage_type == .definition)

/-- First pass of `build_dependency_graph`: a node for every symbol with at
least one `definition` usage, anchored at the first definition's file. -/
def initialGraph (idx : SymbolIndex) : Graph :=
  idx.filterMap (fun p =>
    (firstDefinition p.2).map (fun d =>
      (p.1, DependencyNode.mk p.1 d.file_path [] [])))

/-- The two appends of the inner loop body: add `other` to `symbol`'s
dependencies unless present, and `symbol` to `other`'s dependents unless
present. -/
def addEdge (g : Graph) (symbol other : String) : Graph :=
  let g1 := updateNode g symbol (fun n =>
    if other ∈ n.dependencies then n
    else { n with dependencies := n.dependencies ++ [other] })
  updateNode g1 other (fun n =>
    if symbol ∈ n.dependents then n
    else { n with dependents := n.dependents ++ [symbol] })

/-- Inner loop `for other_symbol in graph:` of `build_dependency_graph`,
guarded by `other_symbol in usage.context and other_symbol != symbol`. -/
def processContext (g : Graph) (symbol context : String) : Graph :=
  (g.map Prod.fst).foldl (fun g2 other =>
    if strContains context other = true ∧ other ≠ symbol then addEdge g2 symbol other
    else g2) g

/-- Per-node loop of the second pass of `build_dependency_graph`. -/
def processSymbol (idx : SymbolIndex) (g : Graph) (symbol : String) : Graph :=
  match lookupNode g symbol with
  | none => g
  | some node =>
    let file_usages := (find_symbol idx symbol).filter
      (fun u => u.file_path == node.file_path)
    file_usages.foldl (fun g2 u =>
      if u.usage_type = .imp ∨ u.usage_type = .call ∨ u.usage_type = .reference
      then processContext g2 symbol u.context
      else g2) g

/-- Embedding of `CodeScout.build_dependency_graph`. -/
def build_dependency_graph (idx : SymbolIndex) : Graph :=
  let g0 := initialGraph idx
  (g0.map Prod.fst).foldl (processSymbol idx) g0

/-- The `usage_breakdown` dict of `analyze_impact`. -/
structure UsageBreakdown where
  imports : Nat
  calls : Nat
  references : Nat
  definitions : Nat
  deriving DecidableEq, Repr

/-- Count of usages of one kind, `len([u for u in usages if u.usage_type == t])`. -/
def countType (us : List SymbolUsage) (t : UsageType) : Nat :=
  (us.filter (fun u => u.usage_type == t)).length

/-- The dict returned by `analyze_impact`; the `dependencies`/`dependents`
keys are present only when the symbol has a graph node, hence `Option`. -/
structure ImpactResult where
  symbol : String
  total_usages : Nat
  affected_files : List String
  file_count : Nat
  usage_breakdown : UsageBreakdown
  dependencies : Option (List String)
  dependents : Option (List String)
  deriving DecidableEq, Repr

/-- Embedding of `CodeScout.analyze_impact`. -/
def analyze_impact (idx : SymbolIndex) (s : String) : ImpactResult :=
  let usages := find_symbol idx s
  let graph := build_dependency_graph idx
  let affected := (usages.map (fun u => u.file_path)).dedup
  { symbol := s
    total_usages := usages.length
    affected_files := affected
    file_count := affected.length
    usage_breakdown :=
      { imports := countType usages .imp
        calls := countType usages .call
        references := countType usages .reference
        definitions := countType usages .definition }
    dependencies := (lookupNode graph s).map (fun n => n.dependencies)
    dependents := (lookupNode graph s).map (fun n => n.dependents) }

/-! ### The AST visitor (`SymbolVisitor`)

A small Python AST covering the constructs the visitor handles
(`ast.NodeVisitor` dispatch: a node with a `visit_X` handler runs that
handler, any other node has its children visited in field order). -/

/-- Expression context (`ast.Load` / `ast.Store` / `ast.Del`). -/
inductive PyCtx where
  | load
  | store
  | delCtx
  deriving DecidableEq, Repr

/-- Python expressions, each carrying its `lineno` and `col_offset`. -/
inductive PyExpr where
  | name (id : String) (ctx : PyCtx) (lineno col : Nat)
  | callExpr (func : PyExpr) (args : List PyExpr) (lineno col : Nat)
  | attribute (value : PyExpr) (attr : String) (lineno col : Nat)
  | constant (lineno col : Nat)

/-- Python statements, each carrying its `lineno` and `col_offset`;
`importStmt`/`importFrom` carry the `alias.name`s of their aliases. -/
inductive PyStmt where
  | functionDef (nm : String) (body : List PyStmt) (lineno col : Nat)
  | asyncFunctionDef (nm : String) (body : List PyStmt) (lineno col : Nat)
  | classDef (nm : String) (body : List PyStmt) (lineno col : Nat)
  | importStmt (names : List String) (lineno col : Nat)
  | importFrom (module : Option String) (names : List String) (lineno col : Nat)
  | exprStmt (value : PyExpr) (lineno col : Nat)
  | passStmt (lineno col : Nat)

/-- The whitespace characters removed by Python's `str.strip()` (ASCII). -/
def isPyWhitespace (c : Char) : Bool :=
  c = ' ' || c = '\t' || c = '\n' || c = '\r' || c = '\x0b' || c = '\x0c'

/-- Python `str.strip()`: drop leading and trailing whitespace. -/
def pyStrip (s : String) : String :=
  String.mk (((s.toList.dropWhile isPyWhitespace).reverse.dropWhile isPyWhitespace).reverse)

/-- Split a character list at every occurrence of `c` (Python `str.split(c)`). -/
def splitOnChar (c : Char) : List Char → List (List Char)
  | [] => [[]]
  | x :: rest =>
    let r := splitOnChar c rest
    if x = c then [] :: r
    else
      match r with
      | [] => [[x]]
      | h :: t => (x :: h) :: t

/-- Python `content.split("\n")`, the `self.lines` field of the visitor. -/
def splitLines (s : String) : List String :=
  (splitOnChar (Char.ofNat 10) s.toList).map String.mk

/-- Append a usage to a dict-of-lists entry, creating the key at the end on
first use (`if symbol not in self.symbol_usages: ... ; append`). -/
def indexAppend : SymbolIndex → String → SymbolUsage → SymbolIndex
  | [], s, u => [(s, [u])]
  | (k, us) :: rest, s, u =>
    if k = s then (k, us ++ [u]) :: rest else (k, us) :: indexAppend rest s u

/-- Embedding of `SymbolVisitor._add_usage`: the context is the node's
source line (empty when out of range), stripped. -/
def addUsage (fp : String) (lines : List String) (idx : SymbolIndex)
    (symbol : String) (lineno col : Nat) (ty : UsageType) : SymbolIndex :=
  let context := pyStrip (lines.getD (lineno - 1) "")
  indexAppend idx symbol ⟨fp, lineno, col, context, ty⟩

mutual

/-- Visitor dispatch on expressions: `visit_Call` records the bare callee
name (or attribute name) then generic-visits the children; `visit_Name`
records a `reference` for Load/Store contexts; `Attribute` has no handler
so only its children are visited. -/
def visitExpr (fp : String) (lines : List String) : SymbolIndex → PyExpr → SymbolIndex
  | idx, .name id ctx lineno col =>
    if ctx = .load ∨ ctx = .store then addUsage fp lines idx id lineno col .reference
    else idx
  | idx, .callExpr func args lineno col =>
    let idx1 :=
      match func with
      | .name id _ _ _ => addUsage fp lines idx id lineno col .call
      | .attribute _ attr _ _ => addUsage fp lines idx attr lineno col .call
      | _ => idx
    visitExprs fp lines (visitExpr fp lines idx1 func) args
  | idx, .attribute value _ _ _ => visitExpr fp lines idx value
  | idx, .constant _ _ => idx

/-- `generic_visit` over a list of child expressions, left to right. -/
def visitExprs (fp : String) (lines : List String) : SymbolIndex → List PyExpr → SymbolIndex
  | idx, [] => idx
  | idx, e :: rest => visitExprs fp lines (visitExpr fp lines idx e) rest

end

mutual

/-- Visitor dispatch on statements: definitions record a `definition` and
then generic-visit the body; imports record an `import` per alias name
(for `from X import ...` only when the module is present); an expression
statement has no handler so its value expression is visited. -/
def visitStmt (fp : String) (lines : List String) : SymbolIndex → PyStmt → SymbolIndex
  | idx, .functionDef nm body lineno col =>
    visitStmts fp lines (addUsage fp lines idx nm lineno col .definition) body
  | idx, .asyncFunctionDef nm body lineno col =>
    visitStmts fp lines (addUsage fp lines idx nm lineno col .definition) body
  | idx, .classDef nm body lineno col =>
    visitStmts fp lines (addUsage fp lines idx nm lineno col .definition) body
  | idx, .importStmt names lineno col =>
    names.foldl (fun i n => addUsage fp lines i n lineno col .imp) idx
  | idx, .importFrom module names lineno col =>
    match module with
    | some _ => names.foldl (fun i n => addUsage fp lines i n lineno col .imp) idx
    | none => idx
  | idx, .exprStmt value _ _ => visitExpr fp lines idx value
  | idx, .passStmt _ _ => idx

/-- `generic_visit` over a statement list, left to right. -/
def visitStmts (fp : String) (lines : List String) : SymbolIndex → List PyStmt → SymbolIndex
  | idx, [] => idx
  | idx, s :: rest => visitStmts fp lines (visitStmt fp lines idx s) rest

end

/-- `SymbolVisitor.visit` over a parsed module, followed by the merge loop
of `_analyze_file` into an initially empty `symbol_usages` dict (which
reproduces the visitor's index verbatim): scanning a single file. -/
def scanFile (fp : String) (content : String) (body : List PyStmt) : SymbolIndex :=
  visitStmts fp (splitLines content) [] body

/-- The two-line example source `def foo(): pass` / `foo()`. -/
def fooSource : String := "def foo(): pass\nfoo()"

/-- The AST of `fooSource` as `ast.parse` produces it. -/
def fooModule : List PyStmt :=
  [ .functionDef "foo" [.passStmt 1 11] 1 0,
    .exprStmt (.callExpr (.name "foo" .load 2 0) [] 2 0) 2 0 ]

/-- The symbol index obtained by scanning the example file. -/
def fooIndex : SymbolIndex := scanFile "example.py" fooSource fooModule

/-! ### `git_blame` (`CodeScout.git_blame`) -/

/-- The dict built by `git_blame` from the porcelain output; absent keys are
`none`. -/
structure BlameInfo where
  author : Option String
  timestamp : Option String
  commit_message : Option String
  deriving DecidableEq, Repr

/-- Python `line.split(" ", 1)[1]`: everything after the first space
(total: empty when the line has no space, unreachable under the guards). -/
def afterFirstSpace : List Char → List Char
  | [] => []
  | c :: rest => if c = ' ' then rest else afterFirstSpace rest

/-- `line.split(" ", 1)[1]` on strings. -/
def strAfterFirstSpace (s : String) : String :=
  String.mk (afterFirstSpace s.toList)

/-- Python `str.startswith`. -/
def strStarts (s pre : String) : Bool :=
  pre.toList.isPrefixOf s.toList

/-- One iteration of the parsing loop of `git_blame`. -/
def parseBlameLine (info : BlameInfo) (line : String) : BlameInfo :=
  if strStarts line "author " then { info with author := some (strAfterFirstSpace line) }
  else if strStarts line "author-time " then
    { info with timestamp := some (strAfterFirstSpace line) }
  else if strStarts line "summary " then
    { info with commit_message := some (strAfterFirstSpace line) }
  else info

/-- The full parsing loop over `output.stdout.split("\n")`. -/
def parseBlame (stdout : String) : BlameInfo :=
  (splitLines stdout).foldl parseBlameLine ⟨none, none, none⟩

/-- Embedding of `CodeScout.git_blame` as a function of the subprocess
result: with `check=True` a non-zero exit raises, caught and mapped to
`None` (`.error`); on success the parsed dict is returned, whether or not
any of the three fields were found. -/
def git_blame (result : Except Unit String) : Option BlameInfo :=
  match result with
  | .error _ => none
  | .ok stdout => some (parseBlame stdout)

/-! ### Target classification (`github_helper.is_github_url`,
`parse_github_url`, `CodeScout.__init__`) -/

/-- Python `str.lower()` on an ASCII character. -/
def asciiLower (c : Char) : Char :=
  if 'A' ≤ c ∧ c ≤ 'Z' then Char.ofNat (c.toNat + 32) else c

/-- Python `str.lower()` (ASCII fragment). -/
def lowerStr (s : String) : String :=
  String.mk (s.toList.map asciiLower)

/-- Embedding of `github_helper.is_github_url`:
`"github.com" in input_str.lower()`. -/
def is_github_url (s : String) : Bool :=
  strContains (lowerStr s) "github.com"

/-- How `CodeScout.__init__` resolved its root. -/
inductive ResolvedRoot where
  | localPath (p : String)
  | cachedPath (p : String)
  | tempClone (p : String)
  deriving DecidableEq, Repr

/-- Embedding of the root resolution in `CodeScout.__init__`: a target is
routed to the GitHub cache (or a one-shot clone when `use_cache` is false)
exactly when `is_github_url` holds; `cloneResult` is the path returned by
the cache/clone attempt, `none` on failure, which raises `ValueError`
(the `.error` case); any other target is used directly as a local path. -/
def scoutResolveRoot (root_directory : String) (use_cache : Bool)
    (cloneResult : Option String) : Except String ResolvedRoot :=
  if is_github_url root_directory then
    match cloneResult with
    | some p => .ok (if use_cache then .cachedPath p else .tempClone p)
    | none =>
      .error ((if use_cache then "Failed to clone/cache GitHub repository: "
               else "Failed to clone GitHub repository: ") ++ root_directory)
  else .ok (.localPath root_directory)

/-- Over-approximation of the first `parse_github_url` regex
`github\.com/([^/]+)/([^/]+)/blob/([^/]+)/(.+)` (searched anywhere in the
string): every string the regex matches satisfies this predicate. -/
def MatchesBlobShape (url : String) : Prop :=
  ∃ pre owner repo ref path,
    owner ≠ "" ∧ repo ≠ "" ∧ ref ≠ "" ∧ path ≠ "" ∧
    url = pre ++ "github.com/" ++ owner ++ "/" ++ repo ++ "/blob/" ++ ref ++ "/" ++ path

/-- Over-approximation of the second `parse_github_url` regex (the `tree`
shape). -/
def MatchesTreeShape (url : String) : Prop :=
  ∃ pre owner repo ref path,
    owner ≠ "" ∧ repo ≠ "" ∧ ref ≠ "" ∧ path ≠ "" ∧
    url = pre ++ "github.com/" ++ owner ++ "/" ++ repo ++ "/tree/" ++ ref ++ "/" ++ path

/-- Over-approximation of the third `parse_github_url` regex
`github\.com/([^/]+)/([^/]+)/?$` (anchored at the end). -/
def MatchesRepoShape (url : String) : Prop :=
  ∃ pre owner repo,
    owner ≠ "" ∧ repo ≠ "" ∧
    (url = pre ++ "github.com/" ++ owner ++ "/" ++ repo ∨
     url = pre ++ "github.com/" ++ owner ++ "/" ++ repo ++ "/")

end CodeScout

namespace GitHubCache

open CodeScout (strContains)

/-- The pre-hash serialization of `_get_cache_key`:
`f"{repo_url}:{ref or 'default'}"`.  The md5 digest applied afterwards is a
deterministic function of this string, so equal serializations give equal
cache keys. -/
def cacheKeyString (repo_url : String) (ref : Option String) : String :=
  repo_url ++ ":" ++
    (match ref with
     | some r => if r = "" then "default" else r
     | none => "default")

/-- One cached clone directory: its key (directory name), filesystem mtime
(seconds), and recursive size in MiB. -/
structure CacheEntry where
  key : String
  mtime : Int
  sizeMB : Rat
  deriving DecidableEq, Repr

/-- The cache root directory: the set of keyed subdirectories. -/
abbrev CacheFS := List CacheEntry

/-- Whether `cache_path.exists()`, and its stat, for a keyed path. -/
def findEntry (fs : CacheFS) (key : String) : Option CacheEntry :=
  fs.find? (fun e => e.key == key)

/-- Embedding of `_is_cache_valid`: the keyed path exists and
`now - mtime < max_age`. -/
def is_cache_valid (fs : CacheFS) (key : String) (now maxAge : Int) : Bool :=
  match findEntry fs key with
  | none => false
  | some e => decide (now - e.mtime < maxAge)

/-- `shutil.rmtree(cache_path)` for a keyed path. -/
def removeEntry (fs : CacheFS) (key : String) : CacheFS :=
  fs.filter (fun e => !(e.key == key))

/-- Total size in MiB of a list of entries. -/
def sumSizes (l : List CacheEntry) : Rat :=
  (l.map (fun e => e.sizeMB)).sum

/-- `cached_repos.sort(key=lambda item: item["mtime"])`: a stable sort by
mtime (Python's sort is stable, so any stable sort gives the same list). -/
def sortByMtime (fs : CacheFS) : List CacheEntry :=
  List.insertionSort (fun a b => a.mtime ≤ b.mtime) fs

/-- The `while total_size_mb > self.max_cache_size_mb and cached_repos:`
loop of `_cleanup_old_caches`, with every `rmtree` succeeding: returns the
deleted entries (in deletion order) and the surviving suffix. -/
def evictLoop (maxMB : Rat) : Rat → List CacheEntry → List CacheEntry × List CacheEntry
  | _, [] => ([], [])
  | total, e :: rest =>
    if maxMB < total then
      let p := evictLoop maxMB (total - e.sizeMB) rest
      (e :: p.1, p.2)
    else ([], e :: rest)

/-- The entries `_cleanup_old_caches` deletes from a cache state. -/
def cleanupDeleted (maxMB : Rat) (fs : CacheFS) : List CacheEntry :=
  (evictLoop maxMB (sumSizes (sortByMtime fs)) (sortByMtime fs)).1

/-- Embedding of `_cleanup_old_caches` acting on the cache root. -/
def cleanup_old_caches (maxMB : Rat) (fs : CacheFS) : CacheFS :=
  let deleted := cleanupDeleted maxMB fs
  fs.filter (fun e => !((deleted.map (fun d => d.key)).contains e.key))

/-- Result of the `git clone` subprocess: success with the size of the new
clone, or failure / wall-clock timeout, either of which may leave a partial
directory (with its mtime and size) at the target path. -/
inductive CloneOutcome where
  | ok (sizeMB : Rat)
  | failed (leftover : Option (Int × Rat))
  | timedOut (leftover : Option (Int × Rat))
  deriving DecidableEq, Repr

/-- What one `get_or_clone` call returned and did: the returned path
(`str(cache_path)` is modelled by the cache key), the new cache state, and
whether a clone subprocess was invoked. -/
structure ResolveResult where
  ret : Option String
  fs : CacheFS
  cloned : Bool
  deriving DecidableEq, Repr

/-- Embedding of `GitHubRepositoryCache.get_or_clone` for one keyed path:
hit when `_is_cache_valid`; otherwise remove any existing keyed directory,
run the clone (whose outcome is the `outcome` parameter; a fresh clone's
mtime is the current time), and on success run the eviction pass and
return the keyed path; on failure or timeout return `None` without
touching whatever the subprocess left behind. -/
def get_or_clone (maxAge : Int) (maxMB : Rat) (fs : CacheFS) (key : String)
    (now : Int) (outcome : CloneOutcome) : ResolveResult :=
  if is_cache_valid fs key now maxAge then
    { ret := some key, fs := fs, cloned := false }
  else
    let fs1 := removeEntry fs key
    match outcome with
    | .ok size =>
      { ret := some key
        fs := cleanup_old_caches maxMB (fs1 ++ [⟨key, now, size⟩])
        cloned := true }
    | .failed leftover =>
      { ret := none
        fs := match leftover with
          | some (m, s) => fs1 ++ [⟨key, m, s⟩]
          | none => fs1
        cloned := true }
    | .timedOut leftover =>
      { ret := none
        fs := match leftover with
          | some (m, s) => fs1 ++ [⟨key, m, s⟩]
          | none => fs1
        cloned := true }

instance : IsTotal CacheEntry (fun a b => a.mtime ≤ b.mtime) :=
  ⟨fun a b => Int.le_total a.mtime b.mtime⟩

instance : IsTrans CacheEntry (fun a b => a.mtime ≤ b.mtime) :=
  ⟨fun _ _ _ hab hbc => le_trans hab hbc⟩

/-- `get_or_clone` keyed by `(repo_url, ref)` through `_get_cache_key`. -/
def resolveRepo (maxAge : Int) (maxMB : Rat) (fs : CacheFS) (repo_url : String)
    (ref : Option String) (now : Int) (outcome : CloneOutcome) : ResolveResult :=
  get_or_clone maxAge maxMB fs (cacheKeyString repo_url ref) now outcome

end GitHubCache

namespace CodeScout

/-- `a` is listed in the dependencies of `b`'s node in graph `g`. -/
def inDependencies (g : Graph) (a b : String) : Prop :=
  ∃ n, lookupNode g b = some n ∧ a ∈ n.dependencies

/-- `b` is listed in the dependents of `a`'s node in graph `g`. -/
def inDependents (g : Graph) (b a : String) : Prop :=
  ∃ n, lookupNode g a = some n ∧ b ∈ n.dependents

/-- The invariant of the second pass of `build_dependency_graph`: edge
symmetry and absence of self-edges. -/
def GraphInv (g : Graph) : Prop :=
  (∀ a b, inDependencies g a b ↔ inDependents g b a) ∧
  (∀ a, ¬ inDependencies g a a ∧ ¬ inDependents g a a)

end CodeScout

/-! ## Theorems -/

namespace CodeScout

/-- Every usage list splits into the four kinds. -/
theorem length_eq_countTypes (us : List SymbolUsage) :
    us.length = countType us .imp + countType us .call +
      countType us .reference + countType us .definition := by
  induction us with
  | nil => rfl
  | cons u rest ih =>
    cases h : u.usage_type <;>
      simp [countType, List.filter_cons, h, beq_iff_eq] at ih ⊢ <;> omega

/-- C4: for every symbol and index state, `analyze_impact(S).total_usages`
equals `len(find_symbol(S))` and equals the sum of the four per-kind counts
of `usage_breakdown`; `analyze_impact` is a pure function of the index (it
only reads `symbol_usages`), so the index is unmodified. -/
theorem impact_accounting (idx : SymbolIndex) (s : String) :
    (analyze_impact idx s).total_usages = (find_symbol idx s).length ∧
    (analyze_impact idx s).total_usages =
      (analyze_impact idx s).usage_breakdown.imports +
      (analyze_impact idx s).usage_breakdown.calls +
      (analyze_impact idx s).usage_breakdown.references +
      (analyze_impact idx s).usage_breakdown.definitions := by
  refine ⟨rfl, ?_⟩
  simpa [analyze_impact] using length_eq_countTypes (find_symbol idx s)

/-- C1 (counterexample): on the two-line example the scanner does not stop
at two records for `foo` — the claimed totals are false. -/
theorem scan_example_claim_false :
    ¬ ((find_symbol fooIndex "foo").length = 2 ∧
       (analyze_impact fooIndex "foo").total_usages = 2 ∧
       (analyze_impact fooIndex "foo").usage_breakdown = ⟨0, 1, 0, 1⟩) := by
  decide

/-- C1 (amended): the two-line source `def foo(): pass` / `foo()` yields
exactly three usage records for `foo`: a `definition` at line 1, a `call`
at line 2, and a `reference` at line 2 (the callee `Name` node of the call
is also visited in Load context); `find_symbol` returns exactly these
three, and `analyze_impact` reports `total_usages=3` with breakdown
`{definitions:1, calls:1, imports:0, references:1}`. -/
theorem scan_example_records :
    find_symbol fooIndex "foo" =
      [ ⟨"example.py", 1, 0, "def foo(): pass", .definition⟩,
        ⟨"example.py", 2, 0, "foo()", .call⟩,
        ⟨"example.py", 2, 0, "foo()", .reference⟩ ] ∧
    fooIndex = [("foo", find_symbol fooIndex "foo")] ∧
    analyze_impact fooIndex "foo" =
      ⟨"foo", 3, ["example.py"], 1, ⟨0, 1, 1, 1⟩, some [], some []⟩ := by
  decide

/-- One parsing step sets `author` exactly on an `author ` line. -/
theorem parseBlameLine_author (info : BlameInfo) (l : String) :
    (parseBlameLine info l).author.isSome =
      (strStarts l "author " || info.author.isSome) := by
  unfold parseBlameLine
  split_ifs with h1 h2 h3 <;> simp [h1]

/-- A line starting with one of two mutually non-prefix tags cannot start
with the other. -/
theorem strStarts_excl (l p q : String) (hp : ¬ p.toList <+: q.toList)
    (hq : ¬ q.toList <+: p.toList) (h : strStarts l p = true) :
    strStarts l q = false := by
  by_contra hc
  rw [Bool.not_eq_false] at hc
  rw [strStarts, List.isPrefixOf_iff_prefix] at h hc
  rcases List.prefix_or_prefix_of_prefix h hc with h' | h'
  · exact hp h'
  · exact hq h'

/-- One parsing step sets `timestamp` exactly on an `author-time ` line. -/
theorem parseBlameLine_timestamp (info : BlameInfo) (l : String) :
    (parseBlameLine info l).timestamp.isSome =
      (strStarts l "author-time " || info.timestamp.isSome) := by
  unfold parseBlameLine
  split_ifs with h1 h2 h3
  · rw [strStarts_excl l "author " "author-time " (by decide) (by decide) h1]; simp
  · simp [h2]
  · simp [h2]
  · simp [h2]

/-- One parsing step sets `commit_message` exactly on a `summary ` line. -/
theorem parseBlameLine_summary (info : BlameInfo) (l : String) :
    (parseBlameLine info l).commit_message.isSome =
      (strStarts l "summary " || info.commit_message.isSome) := by
  unfold parseBlameLine
  split_ifs with h1 h2 h3
  · rw [strStarts_excl l "author " "summary " (by decide) (by decide) h1]; simp
  · rw [strStarts_excl l "author-time " "summary " (by decide) (by decide) h2]; simp
  · simp [h3]
  · simp [h3]

/-- The parsing loop finds an author iff some line carries one. -/
theorem foldl_parseBlame_author (ls : List String) (info : BlameInfo) :
    ((ls.foldl parseBlameLine info).author).isSome =
      (info.author.isSome || ls.any (fun l => strStarts l "author ")) := by
  induction ls generalizing info with
  | nil => simp
  | cons l rest ih =>
    rw [List.foldl_cons, ih, parseBlameLine_author, List.any_cons]
    cases strStarts l "author " <;> simp

/-- The parsing loop finds a timestamp iff some line carries one. -/
theorem foldl_parseBlame_timestamp (ls : List String) (info : BlameInfo) :
    ((ls.foldl parseBlameLine info).timestamp).isSome =
      (info.timestamp.isSome || ls.any (fun l => strStarts l "author-time ")) := by
  induction ls generalizing info with
  | nil => simp
  | cons l rest ih =>
    rw [List.foldl_cons, ih, parseBlameLine_timestamp, List.any_cons]
    cases strStarts l "author-time " <;> simp

/-- The parsing loop finds a commit message iff some line carries one. -/
theorem foldl_parseBlame_summary (ls : List String) (info : BlameInfo) :
    ((ls.foldl parseBlameLine info).commit_message).isSome =
      (info.commit_message.isSome || ls.any (fun l => strStarts l "summary ")) := by
  induction ls generalizing info with
  | nil => simp
  | cons l rest ih =>
    rw [List.foldl_cons, ih, parseBlameLine_summary, List.any_cons]
    cases strStarts l "summary " <;> simp

/-- C8 (counterexample): a successful blame subprocess whose output carries
none of the three metadata fields makes `git_blame` return an empty dict,
not `None` as claimed. -/
theorem git_blame_claim_false :
    git_blame (.ok "") ≠ none ∧ git_blame (.ok "") = some ⟨none, none, none⟩ := by
  decide

/-- C8 (amended): `git_blame` returns `None` exactly when the subprocess
raises (non-zero exit under `check=True`); on success it returns the
parsed dict, in which each of author, timestamp and commit_message is
present iff a line of the porcelain output starts with the corresponding
tag — missing metadata yields a partial or empty dict rather than `None`. -/
theorem git_blame_amended (stdout : String) :
    git_blame (.error ()) = none ∧
    git_blame (.ok stdout) = some (parseBlame stdout) ∧
    (parseBlame stdout).author.isSome =
      (splitLines stdout).any (fun l => strStarts l "author ") ∧
    (parseBlame stdout).timestamp.isSome =
      (splitLines stdout).any (fun l => strStarts l "author-time ") ∧
    (parseBlame stdout).commit_message.isSome =
      (splitLines stdout).any (fun l => strStarts l "summary ") := by
  refine ⟨rfl, rfl, ?_, ?_, ?_⟩
  · simpa using foldl_parseBlame_author (splitLines stdout) ⟨none, none, none⟩
  · simpa using foldl_parseBlame_timestamp (splitLines stdout) ⟨none, none, none⟩
  · simpa using foldl_parseBlame_summary (splitLines stdout) ⟨none, none, none⟩

/-- `toList` distributes over string append. -/
theorem toList_append (a b : String) : (a ++ b).toList = a.toList ++ b.toList :=
  String.data_append a b

/-- `listInfix` decides the contiguous-sublist relation. -/
theorem listInfix_iff (n : List Char) (h : List Char) :
    listInfix n h = true ↔ n <:+: h := by
  induction h with
  | nil => simp [listInfix, List.isEmpty_iff]
  | cons c rest ih =>
    simp [listInfix, List.isPrefixOf_iff_prefix, ih, List.infix_cons_iff]

/-- Containment survives appending on the right. -/
theorem strContains_append_left (a b needle : String)
    (h : strContains a needle = true) : strContains (a ++ b) needle = true := by
  rw [strContains, listInfix_iff] at h
  rw [strContains, listInfix_iff, toList_append]
  exact h.trans (List.prefix_append a.toList b.toList).isInfix

/-- Containment survives appending on the left. -/
theorem strContains_append_right (a b needle : String)
    (h : strContains b needle = true) : strContains (a ++ b) needle = true := by
  rw [strContains, listInfix_iff] at h
  rw [strContains, listInfix_iff, toList_append]
  exact h.trans (List.suffix_append a.toList b.toList).isInfix

/-- Any string matching the blob shape contains `github.com`. -/
theorem blobShape_contains (url : String) (h : MatchesBlobShape url) :
    strContains url "github.com" = true := by
  obtain ⟨pre, owner, repo, ref, path, _, _, _, _, hurl⟩ := h
  subst hurl
  apply strContains_append_left
  apply strContains_append_left
  apply strContains_append_left
  apply strContains_append_left
  apply strContains_append_left
  apply strContains_append_left
  apply strContains_append_left
  apply strContains_append_right
  decide

/-- Any string matching the tree shape contains `github.com`. -/
theorem treeShape_contains (url : String) (h : MatchesTreeShape url) :
    strContains url "github.com" = true := by
  obtain ⟨pre, owner, repo, ref, path, _, _, _, _, hurl⟩ := h
  subst hurl
  apply strContains_append_left
  apply strContains_append_left
  apply strContains_append_left
  apply strContains_append_left
  apply strContains_append_left
  apply strContains_append_left
  apply strContains_append_left
  apply strContains_append_right
  decide

/-- Any string matching the repo-root shape contains `github.com`. -/
theorem repoShape_contains (url : String) (h : MatchesRepoShape url) :
    strContains url "github.com" = true := by
  obtain ⟨pre, owner, repo, _, _, hurl | hurl⟩ := h <;> subst hurl
  · apply strContains_append_left
    apply strContains_append_left
    apply strContains_append_left
    apply strContains_append_right
    decide
  · apply strContains_append_left
    apply strContains_append_left
    apply strContains_append_left
    apply strContains_append_left
    apply strContains_append_right
    decide

/-- C5 (counterexample): the target `https://gitlab.com/x/y` is a remote
URL matching none of the three recognized shapes, yet resolution silently
treats it as a local path and raises nothing. -/
theorem malformed_target_claim_false :
    ¬ MatchesBlobShape "https://gitlab.com/x/y" ∧
    ¬ MatchesTreeShape "https://gitlab.com/x/y" ∧
    ¬ MatchesRepoShape "https://gitlab.com/x/y" ∧
    is_github_url "https://gitlab.com/x/y" = false ∧
    scoutResolveRoot "https://gitlab.com/x/y" true none =
      .ok (.localPath "https://gitlab.com/x/y") := by
  refine ⟨?_, ?_, ?_, rfl, rfl⟩
  · intro h; exact absurd (blobShape_contains _ h) (by decide)
  · intro h; exact absurd (treeShape_contains _ h) (by decide)
  · intro h; exact absurd (repoShape_contains _ h) (by decide)

/-- C5 (amended): only targets whose lowercased text contains `github.com`
are routed to the GitHub resolver — any other target, including remote
URLs matching none of the recognized shapes, is silently used as a local
path with no error; for `github.com`-containing targets a failed
clone/cache attempt raises a `ValueError` whose message carries the
target. -/
theorem malformed_target_amended (target : String) :
    (is_github_url target = false →
      ∀ (use_cache : Bool) (res : Option String),
        scoutResolveRoot target use_cache res = .ok (.localPath target)) ∧
    (is_github_url target = true →
      scoutResolveRoot target true none =
        .error ("Failed to clone/cache GitHub repository: " ++ target) ∧
      scoutResolveRoot target false none =
        .error ("Failed to clone GitHub repository: " ++ target)) := by
  constructor
  · intro h uc res
    simp [scoutResolveRoot, h]
  · intro h
    constructor <;> simp [scoutResolveRoot, h]

/-- C5 witness: the amended theorem applied to one non-GitHub and one
GitHub target. -/
theorem malformed_target_amended_witness :
    scoutResolveRoot "https://gitlab.com/x/y" true none =
      .ok (.localPath "https://gitlab.com/x/y") ∧
    scoutResolveRoot "https://github.com/o/r" true none =
      .error ("Failed to clone/cache GitHub repository: " ++ "https://github.com/o/r") := by
  constructor
  · exact (malformed_target_amended "https://gitlab.com/x/y").1 rfl true none
  · exact ((malformed_target_amended "https://github.com/o/r").2 rfl).1

end CodeScout

namespace GitHubCache

/-- C9: the cache key serialization is not injective — the distinct targets
`("a:b", None)` and `("a", "b:default")` serialize to the same key string
`"a:b:default"`, hence hash to the same md5 cache key and share one cache
entry. -/
theorem cache_key_collision :
    ("a:b", (none : Option String)) ≠ ("a", some "b:default") ∧
    cacheKeyString "a:b" none = cacheKeyString "a" (some "b:default") := by
  exact ⟨by decide, rfl⟩

/-- Sorting by mtime does not change the total size. -/
theorem sumSizes_sortByMtime (fs : CacheFS) : sumSizes (sortByMtime fs) = sumSizes fs := by
  unfold sumSizes sortByMtime
  exact List.Perm.sum_eq
    (List.Perm.map (fun e : CacheEntry => e.sizeMB)
      (List.perm_insertionSort (fun a b : CacheEntry => a.mtime ≤ b.mtime) fs))

/-- The eviction loop deletes nothing when already at or under the ceiling. -/
theorem evictLoop_fst_nil (maxMB total : Rat) (l : List CacheEntry)
    (h : ¬ maxMB < total) : (evictLoop maxMB total l).1 = [] := by
  cases l <;> simp [evictLoop, h]

/-- The eviction pass is a no-op on a cache at or under the ceiling. -/
theorem cleanup_noop (maxMB : Rat) (fs : CacheFS) (h : sumSizes fs ≤ maxMB) :
    cleanup_old_caches maxMB fs = fs := by
  unfold cleanup_old_caches cleanupDeleted
  rw [sumSizes_sortByMtime, evictLoop_fst_nil _ _ _ (not_lt.mpr h)]
  simp

/-- After removing a key and appending a fresh entry for it, lookup finds
the fresh entry. -/
theorem findEntry_removeEntry_append (fs : CacheFS) (key : String)
    (e : CacheEntry) (he : e.key = key) :
    findEntry (removeEntry fs key ++ [e]) key = some e := by
  induction fs with
  | nil => simp [findEntry, removeEntry, List.find?, he]
  | cons x rest ih =>
    by_cases hx : x.key = key
    · simpa [removeEntry, List.filter_cons, hx] using ih
    · simpa [findEntry, removeEntry, List.filter_cons, hx, List.find?_cons, hx] using ih

/-- A missing keyed path is never valid. -/
theorem is_cache_valid_of_none (fs : CacheFS) (key : String) (now maxAge : Int)
    (h : findEntry fs key = none) : is_cache_valid fs key now maxAge = false := by
  rw [is_cache_valid, h]

/-- C2: an embedding-level demonstration of the divergence.  A clone that
times out returns `None` and caches nothing it controls — but the partial
directory the killed subprocess leaves at the keyed path stays, and a
subsequent resolve of the same key within the TTL returns that partial
directory as a cache hit without cloning. -/
theorem timeout_partial_promoted_to_hit :
    (get_or_clone 24 5000 [] "k" 0 (.timedOut (some (0, 1)))).ret = none ∧
    (get_or_clone 24 5000 [] "k" 0 (.timedOut (some (0, 1)))).fs =
      [⟨"k", 0, 1⟩] ∧
    get_or_clone 24 5000 [⟨"k", 0, 1⟩] "k" 1 (.ok 1) =
      ⟨some "k", [⟨"k", 0, 1⟩], false⟩ := by
  decide

/-- C6 (counterexample): with a ceiling the fresh clone itself exceeds, the
eviction pass that runs after a successful clone deletes the entry that
was just created, so a second resolve of the same `(url, ref)` within the
TTL clones again — two clones, not one. -/
theorem cache_hit_claim_false :
    (resolveRepo 24 0 [] "u" none 0 (.ok 1)).cloned = true ∧
    (resolveRepo 24 0 [] "u" none 0 (.ok 1)).fs = [] ∧
    (resolveRepo 24 0 (resolveRepo 24 0 [] "u" none 0 (.ok 1)).fs
      "u" none 1 (.ok 1)).cloned = true := by
  have hv : is_cache_valid [] "u:default" 0 24 = false := rfl
  have hs : sumSizes [(⟨"u:default", 0, 1⟩ : CacheEntry)] = 1 := by
    norm_num [sumSizes]
  have hclean : cleanup_old_caches 0 [(⟨"u:default", 0, 1⟩ : CacheEntry)] = [] := by
    have hev : (evictLoop 0 (sumSizes [(⟨"u:default", 0, 1⟩ : CacheEntry)])
        [(⟨"u:default", 0, 1⟩ : CacheEntry)]).1 = [⟨"u:default", 0, 1⟩] := by
      rw [hs]
      norm_num [evictLoop]
    unfold cleanup_old_caches cleanupDeleted
    rw [show sortByMtime [(⟨"u:default", 0, 1⟩ : CacheEntry)] =
        [(⟨"u:default", 0, 1⟩ : CacheEntry)] from rfl, hev]
    simp
  have hr1 : resolveRepo 24 0 [] "u" none 0 (.ok 1) = ⟨some "u:default", [], true⟩ := by
    simp [resolveRepo, cacheKeyString, get_or_clone, hv, removeEntry, hclean]
  refine ⟨by rw [hr1], by rw [hr1], ?_⟩
  rw [hr1]
  rfl

/-- C6 (amended): (hit) if the keyed path exists and `now - mtime < max_age`
the call returns that path without cloning and leaves the cache unchanged;
(miss) for an uncached key a successful clone is performed and, provided
the post-clone eviction pass does not remove the fresh entry (total size
at or under the ceiling), a second resolve within the TTL performs no
clone and returns the same path; (stale) a keyed path older than
`max_age` is removed and exactly one re-clone is performed on that call,
after which the keyed path holds the fresh entry. -/
theorem cache_hit_miss_amended (maxAge : Int) (maxMB : Rat) (fs : CacheFS)
    (key : String) (now now2 : Int) (size : Rat) (outcome2 : CloneOutcome) :
    (is_cache_valid fs key now maxAge = true →
      get_or_clone maxAge maxMB fs key now outcome2 = ⟨some key, fs, false⟩) ∧
    (findEntry fs key = none →
      sumSizes (removeEntry fs key ++ [⟨key, now, size⟩]) ≤ maxMB →
      now2 - now < maxAge →
      (get_or_clone maxAge maxMB fs key now (.ok size)).cloned = true ∧
      (get_or_clone maxAge maxMB fs key now (.ok size)).ret = some key ∧
      get_or_clone maxAge maxMB
          (get_or_clone maxAge maxMB fs key now (.ok size)).fs key now2 outcome2 =
        ⟨some key, (get_or_clone maxAge maxMB fs key now (.ok size)).fs, false⟩) ∧
    (∀ e, findEntry fs key = some e → ¬ (now - e.mtime < maxAge) →
      sumSizes (removeEntry fs key ++ [⟨key, now, size⟩]) ≤ maxMB →
      (get_or_clone maxAge maxMB fs key now (.ok size)).cloned = true ∧
      findEntry (get_or_clone maxAge maxMB fs key now (.ok size)).fs key =
        some ⟨key, now, size⟩) := by
  refine ⟨?_, ?_, ?_⟩
  · intro hv
    simp [get_or_clone, hv]
  · intro h1 hsum h23
    have hv0 : is_cache_valid fs key now maxAge = false :=
      is_cache_valid_of_none fs key now maxAge h1
    have hr1 : get_or_clone maxAge maxMB fs key now (.ok size) =
        ⟨some key, removeEntry fs key ++ [⟨key, now, size⟩], true⟩ := by
      simp [get_or_clone, hv0, cleanup_noop _ _ hsum]
    have hf : findEntry (removeEntry fs key ++ [⟨key, now, size⟩]) key =
        some ⟨key, now, size⟩ :=
      findEntry_removeEntry_append fs key ⟨key, now, size⟩ rfl
    have hv2 : is_cache_valid (removeEntry fs key ++ [⟨key, now, size⟩])
        key now2 maxAge = true := by
      rw [is_cache_valid, hf]
      exact decide_eq_true h23
    rw [hr1]
    exact ⟨rfl, rfl, by simp [get_or_clone, hv2]⟩
  · intro e he hstale hsum
    have hv0 : is_cache_valid fs key now maxAge = false := by
      rw [is_cache_valid, he]
      exact decide_eq_false hstale
    have hr1 : get_or_clone maxAge maxMB fs key now (.ok size) =
        ⟨some key, removeEntry fs key ++ [⟨key, now, size⟩], true⟩ := by
      simp [get_or_clone, hv0, cleanup_noop _ _ hsum]
    rw [hr1]
    exact ⟨rfl, findEntry_removeEntry_append fs key ⟨key, now, size⟩ rfl⟩

/-- C6 witness: the amended theorem at concrete inputs — a warm hit, a
cold miss followed by a hit within the TTL, and a stale re-clone. -/
theorem cache_hit_miss_amended_witness :
    get_or_clone 24 100 [⟨"k", 0, 1⟩] "k" 1 (.ok 1) =
      ⟨some "k", [⟨"k", 0, 1⟩], false⟩ ∧
    ((get_or_clone 24 100 [] "k" 0 (.ok 1)).cloned = true ∧
     (get_or_clone 24 100 [] "k" 0 (.ok 1)).ret = some "k" ∧
     get_or_clone 24 100 (get_or_clone 24 100 [] "k" 0 (.ok 1)).fs "k" 1 (.ok 1) =
       ⟨some "k", (get_or_clone 24 100 [] "k" 0 (.ok 1)).fs, false⟩) ∧
    ((get_or_clone 24 100 [⟨"k", 0, 1⟩] "k" 30 (.ok 1)).cloned = true ∧
     findEntry (get_or_clone 24 100 [⟨"k", 0, 1⟩] "k" 30 (.ok 1)).fs "k" =
       some ⟨"k", 30, 1⟩) := by
  refine ⟨?_, ?_, ?_⟩
  · exact (cache_hit_miss_amended 24 100 [⟨"k", 0, 1⟩] "k" 1 0 1 (.ok 1)).1 (by decide)
  · exact (cache_hit_miss_amended 24 100 [] "k" 0 1 1 (.ok 1)).2.1
      (by decide) (by norm_num [sumSizes, removeEntry]) (by decide)
  · exact (cache_hit_miss_amended 24 100 [⟨"k", 0, 1⟩] "k" 30 0 1 (.ok 1)).2.2
      ⟨"k", 0, 1⟩ (by decide) (by decide) (by norm_num [sumSizes, removeEntry])

/-- The eviction loop: the deleted entries are a prefix of its input, the
survivors are under the ceiling or empty, and every deletion happened
while still over the ceiling. -/
theorem evictLoop_spec (maxMB : Rat) (l : List CacheEntry) (total : Rat)
    (htot : total = sumSizes l) :
    (evictLoop maxMB total l).1 ++ (evictLoop maxMB total l).2 = l ∧
    ((evictLoop maxMB total l).2 = [] ∨ sumSizes (evictLoop maxMB total l).2 ≤ maxMB) ∧
    (∀ k : Nat, (evictLoop maxMB total l).1.length ≤ k ∨ maxMB < sumSizes (l.drop k)) := by
  induction l generalizing total with
  | nil =>
    refine ⟨rfl, Or.inl rfl, fun k => Or.inl ?_⟩
    simp [evictLoop]
  | cons e rest ih =>
    by_cases h : maxMB < total
    · have ih' := ih (total - e.sizeMB)
        (by rw [htot]; simp [sumSizes, List.sum_cons]; try ring)
      have hev : evictLoop maxMB total (e :: rest) =
          (e :: (evictLoop maxMB (total - e.sizeMB) rest).1,
           (evictLoop maxMB (total - e.sizeMB) rest).2) := by
        simp [evictLoop, h]
      rw [hev]
      refine ⟨by simpa using ih'.1, ih'.2.1, ?_⟩
      intro k
      cases k with
      | zero => exact Or.inr (by simpa using htot ▸ h)
      | succ k =>
        rcases ih'.2.2 k with hk | hk
        · exact Or.inl (by simpa using Nat.succ_le_succ hk)
        · exact Or.inr (by simpa using hk)
    · have hev : evictLoop maxMB total (e :: rest) = ([], e :: rest) := by
        simp [evictLoop, h]
      rw [hev]
      exact ⟨rfl, Or.inr (htot ▸ not_lt.mp h), fun k => Or.inl (by simp)⟩

/-- C7: the eviction pass deletes a prefix of the mtime-sorted entry list
(hence strictly oldest-mtime first, leaving every newer entry untouched as
the surviving suffix), stops exactly when the remaining total size is at
or under the ceiling or the cache is empty, and each deletion happened
only while the running total was still over the ceiling. -/
theorem eviction_correct (maxMB : Rat) (fs : CacheFS) :
    cleanupDeleted maxMB fs ++
        (evictLoop maxMB (sumSizes (sortByMtime fs)) (sortByMtime fs)).2 =
      sortByMtime fs ∧
    List.Sorted (fun a b : CacheEntry => a.mtime ≤ b.mtime) (sortByMtime fs) ∧
    ((evictLoop maxMB (sumSizes (sortByMtime fs)) (sortByMtime fs)).2 = [] ∨
      sumSizes (evictLoop maxMB (sumSizes (sortByMtime fs)) (sortByMtime fs)).2 ≤ maxMB) ∧
    (∀ k : Nat, (cleanupDeleted maxMB fs).length ≤ k ∨
      maxMB < sumSizes ((sortByMtime fs).drop k)) ∧
    (cleanupDeleted maxMB fs).all (fun d =>
      (evictLoop maxMB (sumSizes (sortByMtime fs)) (sortByMtime fs)).2.all
        (fun r => decide (d.mtime ≤ r.mtime))) = true := by
  have hs := evictLoop_spec maxMB (sortByMtime fs) (sumSizes (sortByMtime fs)) rfl
  have hsorted : List.Sorted (fun a b : CacheEntry => a.mtime ≤ b.mtime) (sortByMtime fs) :=
    List.sorted_insertionSort _ fs
  refine ⟨hs.1, hsorted, hs.2.1, hs.2.2, ?_⟩
  have hsorted2 := hsorted
  rw [← hs.1] at hsorted2
  have hcross := (List.pairwise_append.mp hsorted2).2.2
  simp only [List.all_eq_true, decide_eq_true_eq]
  intro d hd r hr
  exact hcross d hd r hr

end GitHubCache

namespace CodeScout

/-! ### Dependency-graph symmetry (C3) and graph-key accounting (C10) -/

/-- Lookup after a dict-style update. -/
theorem lookupNode_update (g : Graph) (s t : String) (f : DependencyNode → DependencyNode) :
    lookupNode (updateNode g s f) t =
      if t = s then (lookupNode g t).map f else lookupNode g t := by
  induction g with
  | nil => simp [lookupNode, updateNode]
  | cons p rest ih =>
    obtain ⟨k, n⟩ := p
    have hstep : updateNode ((k, n) :: rest) s f =
        (if k = s then (k, f n) else (k, n)) :: updateNode rest s f := by
      by_cases hks : k = s <;> simp [updateNode, hks]
    rw [hstep]
    by_cases hks : k = s
    · rw [if_pos hks]
      by_cases hkt : k = t
      · subst hkt
        subst hks
        rw [lookupNode, if_pos rfl, lookupNode, if_pos rfl, if_pos rfl]
        rfl
      · rw [lookupNode, if_neg hkt, lookupNode, if_neg hkt, ih]
    · rw [if_neg hks]
      by_cases hkt : k = t
      · subst hkt
        rw [lookupNode, if_pos rfl, lookupNode, if_pos rfl,
          if_neg (fun h : k = s => hks h)]
      · rw [lookupNode, if_neg hkt, lookupNode, if_neg hkt, ih]

/-- Updates do not change the key list. -/
theorem updateNode_keys (g : Graph) (s : String) (f : DependencyNode → DependencyNode) :
    (updateNode g s f).map Prod.fst = g.map Prod.fst := by
  induction g with
  | nil => rfl
  | cons p rest ih =>
    have hstep : updateNode (p :: rest) s f =
        (if p.1 = s then (p.1, f p.2) else p) :: updateNode rest s f := by
      by_cases hks : p.1 = s <;> simp [updateNode, hks]
    rw [hstep, List.map_cons, List.map_cons, ih]
    by_cases h : p.1 = s <;> simp [h]

/-- A key is present exactly when lookup succeeds. -/
theorem lookupNode_isSome_iff (g : Graph) (s : String) :
    (lookupNode g s).isSome = true ↔ s ∈ g.map Prod.fst := by
  induction g with
  | nil => simp [lookupNode]
  | cons p rest ih =>
    obtain ⟨k, n⟩ := p
    rw [List.map_cons, List.mem_cons]
    by_cases h : k = s
    · subst h
      rw [lookupNode, if_pos rfl]
      simp
    · rw [lookupNode, if_neg h, ih]
      constructor
      · exact Or.inr
      · rintro (he | hm)
        · exact absurd he.symm h
        · exact hm

/-- Successful lookup means membership. -/
theorem lookupNode_mem (g : Graph) (s : String) (n : DependencyNode)
    (h : lookupNode g s = some n) : (s, n) ∈ g := by
  induction g with
  | nil => simp [lookupNode] at h
  | cons p rest ih =>
    obtain ⟨k, m⟩ := p
    by_cases hk : k = s
    · subst hk
      rw [lookupNode, if_pos rfl] at h
      exact (Option.some_inj.mp h) ▸ List.mem_cons_self _ _
    · rw [lookupNode, if_neg hk] at h
      exact List.mem_cons_of_mem _ (ih h)

end CodeScout

namespace CodeScout

/-- The dependents-update function leaves dependencies unchanged. -/
theorem depsG_eq (n : DependencyNode) (s : String) :
    (if s ∈ n.dependents then n
      else { n with dependents := n.dependents ++ [s] }).dependencies = n.dependencies := by
  by_cases h : s ∈ n.dependents <;> simp [h]

/-- The dependencies-update function leaves dependents unchanged. -/
theorem depdF_eq (n : DependencyNode) (o : String) :
    (if o ∈ n.dependencies then n
      else { n with dependencies := n.dependencies ++ [o] }).dependents = n.dependents := by
  by_cases h : o ∈ n.dependencies <;> simp [h]

/-- Membership after the guarded dependencies-append. -/
theorem depsF_mem (n : DependencyNode) (o a : String) :
    (a ∈ (if o ∈ n.dependencies then n
      else { n with dependencies := n.dependencies ++ [o] }).dependencies) ↔
      (a ∈ n.dependencies ∨ a = o) := by
  by_cases h : o ∈ n.dependencies
  · rw [if_pos h]
    exact ⟨Or.inl, fun hx => hx.elim id (fun he => he ▸ h)⟩
  · rw [if_neg h]
    simp

/-- Membership after the guarded dependents-append. -/
theorem depdG_mem (n : DependencyNode) (s b : String) :
    (b ∈ (if s ∈ n.dependents then n
      else { n with dependents := n.dependents ++ [s] }).dependents) ↔
      (b ∈ n.dependents ∨ b = s) := by
  by_cases h : s ∈ n.dependents
  · rw [if_pos h]
    exact ⟨Or.inl, fun hx => hx.elim id (fun he => he ▸ h)⟩
  · rw [if_neg h]
    simp

/-- Pulling an existential through `Option.map`. -/
theorem exists_map_some (f : DependencyNode → DependencyNode)
    (w : Option DependencyNode) (P : DependencyNode → Prop) :
    (∃ n, w.map f = some n ∧ P n) ↔ (∃ m, w = some m ∧ P (f m)) := by
  cases w <;> simp

/-- Lookup through `addEdge`. -/
theorem lookupNode_addEdge (g : Graph) (s o t : String) (hso : s ≠ o) :
    lookupNode (addEdge g s o) t =
      if t = s then
        (lookupNode g t).map (fun n =>
          if o ∈ n.dependencies then n
          else { n with dependencies := n.dependencies ++ [o] })
      else if t = o then
        (lookupNode g t).map (fun n =>
          if s ∈ n.dependents then n
          else { n with dependents := n.dependents ++ [s] })
      else lookupNode g t := by
  unfold addEdge
  rw [lookupNode_update, lookupNode_update]
  by_cases hts : t = s
  · have hto : ¬ t = o := fun h => hso (hts.symm.trans h)
    simp [hts, hto, hso]
  · by_cases hto : t = o
    · simp [hts, hto, Ne.symm hso]
    · simp [hts, hto]

/-- How `addEdge` changes the dependencies relation. -/
theorem inDependencies_addEdge (g : Graph) (s o a b : String) (hso : s ≠ o) :
    inDependencies (addEdge g s o) a b ↔
      (inDependencies g a b ∨ (b = s ∧ a = o ∧ (lookupNode g s).isSome = true)) := by
  unfold inDependencies
  rw [lookupNode_addEdge g s o b hso]
  by_cases hbs : b = s
  · subst hbs
    rw [if_pos rfl, exists_map_some]
    constructor
    · rintro ⟨m, hm, ha⟩
      rw [depsF_mem] at ha
      rcases ha with ha | ha
      · exact Or.inl ⟨m, hm, ha⟩
      · exact Or.inr ⟨rfl, ha, by rw [hm]; rfl⟩
    · rintro (⟨m, hm, ha⟩ | ⟨-, hao, hsome⟩)
      · exact ⟨m, hm, (depsF_mem m o a).mpr (Or.inl ha)⟩
      · obtain ⟨m, hm⟩ := Option.isSome_iff_exists.mp hsome
        exact ⟨m, hm, (depsF_mem m o a).mpr (Or.inr hao)⟩
  · rw [if_neg hbs]
    by_cases hbo : b = o
    · rw [if_pos hbo, exists_map_some]
      constructor
      · rintro ⟨m, hm, ha⟩
        rw [depsG_eq] at ha
        exact Or.inl ⟨m, hm, ha⟩
      · rintro (⟨m, hm, ha⟩ | ⟨hbs2, -, -⟩)
        · exact ⟨m, hm, by rw [depsG_eq]; exact ha⟩
        · exact absurd hbs2 hbs
    · rw [if_neg hbo]
      constructor
      · exact Or.inl
      · rintro (h | ⟨hbs2, -, -⟩)
        · exact h
        · exact absurd hbs2 hbs

/-- How `addEdge` changes the dependents relation. -/
theorem inDependents_addEdge (g : Graph) (s o b a : String) (hso : s ≠ o) :
    inDependents (addEdge g s o) b a ↔
      (inDependents g b a ∨ (a = o ∧ b = s ∧ (lookupNode g o).isSome = true)) := by
  unfold inDependents
  rw [lookupNode_addEdge g s o a hso]
  by_cases has : a = s
  · subst has
    rw [if_pos rfl, exists_map_some]
    constructor
    · rintro ⟨m, hm, hb⟩
      rw [depdF_eq] at hb
      exact Or.inl ⟨m, hm, hb⟩
    · rintro (⟨m, hm, hb⟩ | ⟨hao, -, -⟩)
      · exact ⟨m, hm, by rw [depdF_eq]; exact hb⟩
      · exact absurd hao hso
  · by_cases hao : a = o
    · rw [if_neg has, if_pos hao, exists_map_some]
      constructor
      · rintro ⟨m, hm, hb⟩
        rw [depdG_mem] at hb
        rcases hb with hb | hb
        · exact Or.inl ⟨m, hm, hb⟩
        · exact Or.inr ⟨hao, hb, by rw [← hao, hm]; rfl⟩
      · rintro (⟨m, hm, hb⟩ | ⟨-, hbs, hsome⟩)
        · exact ⟨m, hm, (depdG_mem m s b).mpr (Or.inl hb)⟩
        · obtain ⟨m, hm⟩ := Option.isSome_iff_exists.mp hsome
          exact ⟨m, by rw [hao]; exact hm, (depdG_mem m s b).mpr (Or.inr hbs)⟩
    · rw [if_neg has, if_neg hao]
      constructor
      · exact Or.inl
      · rintro (h | ⟨hao2, -, -⟩)
        · exact h
        · exact absurd hao2 hao

/-- `addEdge` preserves the invariant when both endpoints are keys. -/
theorem graphInv_addEdge (g : Graph) (s o : String) (hso : s ≠ o)
    (hs : (lookupNode g s).isSome = true) (ho : (lookupNode g o).isSome = true)
    (hinv : GraphInv g) : GraphInv (addEdge g s o) := by
  obtain ⟨hsym, hself⟩ := hinv
  constructor
  · intro a b
    rw [inDependencies_addEdge g s o a b hso, inDependents_addEdge g s o b a hso]
    rw [hsym a b]
    constructor
    · rintro (h | ⟨hbs, hao, -⟩)
      · exact Or.inl h
      · exact Or.inr ⟨hao, hbs, ho⟩
    · rintro (h | ⟨hao, hbs, -⟩)
      · exact Or.inl h
      · exact Or.inr ⟨hbs, hao, hs⟩
  · intro a
    constructor
    · rw [inDependencies_addEdge g s o a a hso]
      rintro (h | ⟨has, hao, -⟩)
      · exact (hself a).1 h
      · exact hso (has.symm.trans hao)
    · rw [inDependents_addEdge g s o a a hso]
      rintro (h | ⟨hao, has, -⟩)
      · exact (hself a).1 ((hsym a a).mpr h)
      · exact hso (has.symm.trans hao)

/-- `addEdge` preserves the key list. -/
theorem addEdge_keys (g : Graph) (s o : String) :
    (addEdge g s o).map Prod.fst = g.map Prod.fst := by
  unfold addEdge
  rw [updateNode_keys, updateNode_keys]

/-- A fold whose steps preserve a predicate preserves it. -/
theorem foldl_preserve {β : Type} (P : Graph → Prop) (step : Graph → β → Graph) :
    ∀ (l : List β), (∀ g x, x ∈ l → P g → P (step g x)) → ∀ g, P g → P (l.foldl step g)
  | [], _, _, hg => hg
  | x :: rest, hstep, g, hg => by
    rw [List.foldl_cons]
    exact foldl_preserve P step rest
      (fun g2 y hy => hstep g2 y (List.mem_cons_of_mem _ hy)) _
      (hstep g x (List.mem_cons_self _ _) hg)

end CodeScout

namespace CodeScout

/-- The states traversed by the second pass: invariant plus fixed keys. -/
def InvK (K : List String) (g : Graph) : Prop :=
  GraphInv g ∧ g.map Prod.fst = K

/-- The inner context loop preserves the invariant and the keys. -/
theorem processContext_preserves (K : List String) (g : Graph) (s c : String)
    (hsK : s ∈ K) (hg : InvK K g) : InvK K (processContext g s c) := by
  unfold processContext
  rw [hg.2]
  apply foldl_preserve (InvK K) _ K _ g hg
  intro g2 other hother hP
  by_cases hcond : strContains c other = true ∧ other ≠ s
  · rw [if_pos hcond]
    constructor
    · apply graphInv_addEdge g2 s other (Ne.symm hcond.2) ?hs ?ho hP.1
      case hs =>
        rw [lookupNode_isSome_iff, hP.2]
        exact hsK
      case ho =>
        rw [lookupNode_isSome_iff, hP.2]
        exact hother
    · rw [addEdge_keys]
      exact hP.2
  · rw [if_neg hcond]
    exact hP

/-- The per-symbol loop preserves the invariant and the keys. -/
theorem processSymbol_preserves (K : List String) (idx : SymbolIndex) (g : Graph)
    (s : String) (hsK : s ∈ K) (hg : InvK K g) : InvK K (processSymbol idx g s) := by
  unfold processSymbol
  rcases hn : lookupNode g s with _ | node
  · exact hg
  · apply foldl_preserve (InvK K) _ _ _ g hg
    intro g2 u _ hP
    by_cases hty : u.usage_type = .imp ∨ u.usage_type = .call ∨ u.usage_type = .reference
    · rw [if_pos hty]
      exact processContext_preserves K g2 s u.context hsK hP
    · rw [if_neg hty]
      exact hP

/-- Every node of the first pass has empty edge lists. -/
theorem initial_node_empty (idx : SymbolIndex) (s : String) (n : DependencyNode)
    (h : lookupNode (initialGraph idx) s = some n) :
    n.dependencies = [] ∧ n.dependents = [] := by
  have hmem : (s, n) ∈ initialGraph idx := lookupNode_mem _ _ _ h
  rw [initialGraph, List.mem_filterMap] at hmem
  obtain ⟨p, _, he⟩ := hmem
  rcases hfd : firstDefinition p.2 with _ | d <;> rw [hfd] at he
  · exact absurd he (by simp)
  · have he2 : (p.1, DependencyNode.mk p.1 d.file_path [] []) = (s, n) :=
      Option.some_inj.mp he
    rw [← ((Prod.mk.injEq _ _ _ _).mp he2).2]
    exact ⟨rfl, rfl⟩

/-- The first pass satisfies the invariant vacuously. -/
theorem graphInv_initial (idx : SymbolIndex) : GraphInv (initialGraph idx) := by
  constructor
  · intro a b
    constructor
    · rintro ⟨n, hn, hm⟩
      rw [(initial_node_empty idx b n hn).1] at hm
      exact absurd hm (List.not_mem_nil a)
    · rintro ⟨n, hn, hm⟩
      rw [(initial_node_empty idx a n hn).2] at hm
      exact absurd hm (List.not_mem_nil b)
  · intro a
    constructor
    · rintro ⟨n, hn, hm⟩
      rw [(initial_node_empty idx a n hn).1] at hm
      exact absurd hm (List.not_mem_nil a)
    · rintro ⟨n, hn, hm⟩
      rw [(initial_node_empty idx a n hn).2] at hm
      exact absurd hm (List.not_mem_nil a)

/-- The built graph satisfies the invariant. -/
theorem graphInv_build (idx : SymbolIndex) : GraphInv (build_dependency_graph idx) := by
  unfold build_dependency_graph
  have h := foldl_preserve (InvK ((initialGraph idx).map Prod.fst)) (processSymbol idx)
    ((initialGraph idx).map Prod.fst)
    (fun g s hs hP => processSymbol_preserves _ idx g s hs hP)
    (initialGraph idx) ⟨graphInv_initial idx, rfl⟩
  exact h.1

/-- C3: in the graph returned by `build_dependency_graph`, for all symbols
A and B, A is in dependencies(B) iff B is in dependents(A), and no node
lists itself among its own dependencies or dependents. -/
theorem graph_symmetry_no_self (idx : SymbolIndex) (a b : String) :
    (inDependencies (build_dependency_graph idx) a b ↔
      inDependents (build_dependency_graph idx) b a) ∧
    ¬ inDependencies (build_dependency_graph idx) a a ∧
    ¬ inDependents (build_dependency_graph idx) a a := by
  have h := graphInv_build idx
  exact ⟨h.1 a b, (h.2 a).1, (h.2 a).2⟩

end CodeScout

namespace CodeScout

/-- The second pass never adds or removes graph keys. -/
theorem build_keys (idx : SymbolIndex) :
    (build_dependency_graph idx).map Prod.fst = (initialGraph idx).map Prod.fst := by
  unfold build_dependency_graph
  exact (foldl_preserve (InvK ((initialGraph idx).map Prod.fst)) (processSymbol idx)
    ((initialGraph idx).map Prod.fst)
    (fun g s hs hP => processSymbol_preserves _ idx g s hs hP)
    (initialGraph idx) ⟨graphInv_initial idx, rfl⟩).2

/-- A symbol is a key of the first pass iff some index entry for it has a
definition usage. -/
theorem mem_keys_initialGraph (idx : SymbolIndex) (s : String) :
    s ∈ (initialGraph idx).map Prod.fst ↔
      ∃ p ∈ idx, p.1 = s ∧ (firstDefinition p.2).isSome = true := by
  rw [initialGraph]
  constructor
  · intro h
    rw [List.mem_map] at h
    obtain ⟨q, hq, hqs⟩ := h
    rw [List.mem_filterMap] at hq
    obtain ⟨p, hp, he⟩ := hq
    rcases hfd : firstDefinition p.2 with _ | d <;> rw [hfd] at he
    · exact absurd he (by simp)
    · have he2 : (p.1, DependencyNode.mk p.1 d.file_path [] []) = q :=
        Option.some_inj.mp he
      rw [← he2] at hqs
      exact ⟨p, hp, hqs, by rw [hfd]; rfl⟩
  · rintro ⟨p, hp, hps, hsome⟩
    obtain ⟨d, hd⟩ := Option.isSome_iff_exists.mp hsome
    rw [List.mem_map]
    refine ⟨(p.1, DependencyNode.mk p.1 d.file_path [] []), ?_, hps⟩
    rw [List.mem_filterMap]
    exact ⟨p, hp, by rw [hd]; rfl⟩

/-- With unique keys, every entry is found by lookup. -/
theorem lookupIdx_of_mem_nodup (idx : SymbolIndex) (k : String) (us : List SymbolUsage)
    (hnd : (idx.map Prod.fst).Nodup) (hp : (k, us) ∈ idx) : lookupIdx idx k = some us := by
  induction idx with
  | nil => cases hp
  | cons q rest ih =>
    obtain ⟨k2, us2⟩ := q
    rw [List.map_cons, List.nodup_cons] at hnd
    rcases List.mem_cons.mp hp with he | hm
    · obtain ⟨hk, hu⟩ := (Prod.mk.injEq _ _ _ _).mp he
      rw [lookupIdx, if_pos hk.symm, hu]
    · have hkk : ¬ k2 = k := by
        intro hkk
        apply hnd.1
        rw [hkk]
        exact List.mem_map.mpr ⟨(k, us), hm, rfl⟩
      rw [lookupIdx, if_neg hkk]
      exact ih hnd.2 hm

/-- Successful index lookup means membership. -/
theorem lookupIdx_mem (idx : SymbolIndex) (s : String) (us : List SymbolUsage)
    (h : lookupIdx idx s = some us) : (s, us) ∈ idx := by
  induction idx with
  | nil => simp [lookupIdx] at h
  | cons q rest ih =>
    obtain ⟨k, vs⟩ := q
    by_cases hk : k = s
    · subst hk
      rw [lookupIdx, if_pos rfl] at h
      exact (Option.some_inj.mp h) ▸ List.mem_cons_self _ _
    · rw [lookupIdx, if_neg hk] at h
      exact List.mem_cons_of_mem _ (ih h)

/-- `firstDefinition` succeeds iff the list holds a definition usage. -/
theorem firstDefinition_isSome (us : List SymbolUsage) :
    (firstDefinition us).isSome = true ↔ ∃ u ∈ us, u.usage_type = .definition := by
  rw [firstDefinition]
  induction us with
  | nil => simp
  | cons u rest ih =>
    by_cases h : u.usage_type = .definition
    · have hb : (u.usage_type == UsageType.definition) = true := by
        simp [h]
      simp [List.find?, hb, h]
    · have hb : (u.usage_type == UsageType.definition) = false := by
        simp [h]
      simp [List.find?, hb, h, ih]

/-- C10: `analyze_impact(S)` carries the `dependencies` and `dependents`
keys iff the index holds at least one `definition` usage of S (iff S has a
node in the freshly built graph); a symbol with usages but no definition
gets neither key.  The index keys are assumed unique, as Python dict keys
are. -/
theorem impact_graph_keys (idx : SymbolIndex) (s : String)
    (hnd : (idx.map Prod.fst).Nodup) :
    ((analyze_impact idx s).dependencies.isSome = true ↔
      ∃ u ∈ find_symbol idx s, u.usage_type = .definition) ∧
    ((analyze_impact idx s).dependents.isSome = true ↔
      ∃ u ∈ find_symbol idx s, u.usage_type = .definition) := by
  have hiso : ∀ (o : Option DependencyNode) (f : DependencyNode → List String),
      (o.map f).isSome = o.isSome := by
    intro o f
    cases o <;> rfl
  have hkey : (lookupNode (build_dependency_graph idx) s).isSome = true ↔
      ∃ u ∈ find_symbol idx s, u.usage_type = .definition := by
    rw [lookupNode_isSome_iff, build_keys, mem_keys_initialGraph]
    constructor
    · rintro ⟨p, hp, hps, hsome⟩
      have hlk : lookupIdx idx s = some p.2 := by
        rw [← hps]
        exact lookupIdx_of_mem_nodup idx p.1 p.2 hnd hp
      have hfs : find_symbol idx s = p.2 := by rw [find_symbol, hlk]
      rw [hfs]
      exact (firstDefinition_isSome p.2).mp hsome
    · rintro ⟨u, hu, hdef⟩
      cases hlk : lookupIdx idx s with
      | none =>
        rw [find_symbol, hlk] at hu
        cases hu
      | some us =>
        rw [find_symbol, hlk] at hu
        refine ⟨(s, us), lookupIdx_mem idx s us hlk, rfl, ?_⟩
        exact (firstDefinition_isSome us).mpr ⟨u, hu, hdef⟩
  constructor
  · rw [show (analyze_impact idx s).dependencies =
      (lookupNode (build_dependency_graph idx) s).map (fun n => n.dependencies) from rfl]
    rw [hiso]
    exact hkey
  · rw [show (analyze_impact idx s).dependents =
      (lookupNode (build_dependency_graph idx) s).map (fun n => n.dependents) from rfl]
    rw [hiso]
    exact hkey

/-- C10 witness: the theorem applied to the scanned example index, whose
symbol `foo` has a definition, so both keys are present. -/
theorem impact_graph_keys_witness :
    (analyze_impact fooIndex "foo").dependencies.isSome = true ∧
    (analyze_impact fooIndex "foo").dependents.isSome = true := by
  have h := impact_graph_keys fooIndex "foo" (by decide)
  constructor
  · exact h.1.mpr ⟨⟨"example.py", 1, 0, "def foo(): pass", .definition⟩, by decide, rfl⟩
  · exact h.2.mpr ⟨⟨"example.py", 1, 0, "def foo(): pass", .definition⟩, by decide, rfl⟩

end CodeScout
